import Mathlib

/-!
Verification development for the newcal calibration core
(caldata.py, calibration_optimization.py, calibration_wrappers.py).

Arrays are embedded as total functions over natural-number indices together
with the dimension fields of the containing object; only entries whose
indices lie below the dimensions are meaningful.  Visibility weights are
embedded as rationals: every IEEE float is an exact rational and the drivers
only compare weights against zero, so the comparison semantics agree.
Gain and abscal entries use Option, with none embedding the NaN fill that
the drivers write into flagged solutions.  Real- and complex-valued
quantities (phases, visibilities, weighting kernels) are embedded over the
exact fields of Lean; IEEE rounding, inf and NaN propagation inside the
numeric kernels are outside the model.  The scipy optimizer and the
closed-form crosspolarization phase estimate of cost_function_calculations
(a module not in the sources at hand) are abstracted as pure function
parameters; invocations of scipy.optimize.minimize are counted explicitly.
-/

set_option maxHeartbeats 1000000

namespace Newcal

/-- Embedding of the CalData container from caldata.py: dimensions,
polarization bookkeeping, visibility tensors, weights, gains, abscal
parameters and the metadata consumed by the delay-weight builder.  A gain or
abscal entry of none embeds a NaN written by a driver. -/
structure CalData where
  Nants : ℕ
  Nbls : ℕ
  Ntimes : ℕ
  Nfreqs : ℕ
  N_feed_pols : ℕ
  N_vis_pols : ℕ
  feed_polarization_array : ℕ → ℤ
  vis_polarization_array : ℕ → ℤ
  model_visibilities : ℕ → ℕ → ℕ → ℕ → ℂ
  data_visibilities : ℕ → ℕ → ℕ → ℕ → ℂ
  visibility_weights : ℕ → ℕ → ℕ → ℕ → ℚ
  gains : ℕ → ℕ → ℕ → Option ℂ
  abscal_params : ℕ → ℕ → ℕ → Option ℝ
  uv_array : ℕ → ℝ × ℝ
  channel_width : ℝ

/-- Maximum of the visibility_weights tensor, as the drivers compute it with
np.max(caldata_obj.visibility_weights) before comparing against zero.  The
fold starts from 0; this agrees with np.max on the nonnegative weight arrays
the pipeline constructs (caldata.py builds weights as ones with flagged
entries zeroed). -/
def maxWeight (cd : CalData) : ℚ :=
  (((List.range cd.Ntimes).flatMap fun t =>
    (List.range cd.Nbls).flatMap fun b =>
      (List.range cd.Nfreqs).flatMap fun f =>
        (List.range cd.N_vis_pols).map fun p =>
          cd.visibility_weights t b f p).foldr max 0)

/-- First index below n satisfying f: embeds np.where(...)[0][0], which
raises IndexError when nothing matches (hence Option). -/
def firstIndexWhere (f : ℕ → Bool) (n : ℕ) : Option ℕ :=
  (List.range n).find? f

/-- Per-polarization slice taken by CalData.expand_in_polarization at feed
polarization index p (caldata.py lines 564-652): the slice keeps the
visibility polarization matching that feed polarization and carries
single-entry polarization axes.  Fails (none) when the feed polarization
does not occur in vis_polarization_array, where the source indexes an empty
np.where result. -/
def expandInPolarizationAt (cd : CalData) (p : ℕ) : Option CalData :=
  (firstIndexWhere
      (fun i => cd.vis_polarization_array i == cd.feed_polarization_array p)
      cd.N_vis_pols).map fun skyPolInd =>
    { cd with
      N_feed_pols := 1
      N_vis_pols := 1
      feed_polarization_array := fun _ => cd.feed_polarization_array p
      vis_polarization_array := fun _ => cd.vis_polarization_array skyPolInd
      model_visibilities := fun t b f _ => cd.model_visibilities t b f skyPolInd
      data_visibilities := fun t b f _ => cd.data_visibilities t b f skyPolInd
      visibility_weights := fun t b f _ => cd.visibility_weights t b f skyPolInd
      gains := fun a f _ => cd.gains a f p
      abscal_params := fun i f _ => cd.abscal_params i f p }

/-- Per-frequency slice taken by CalData.expand_in_frequency at frequency
index f (caldata.py lines 514-562): a single-channel CalData sharing the
antenna and baseline metadata. -/
def expandInFrequencyAt (cd : CalData) (f : ℕ) : CalData :=
  { cd with
    Nfreqs := 1
    model_visibilities := fun t b _ p => cd.model_visibilities t b f p
    data_visibilities := fun t b _ p => cd.data_visibilities t b f p
    visibility_weights := fun t b _ p => cd.visibility_weights t b f p
    gains := fun a _ p => cd.gains a f p
    abscal_params := fun i _ p => cd.abscal_params i f p }

lemma foldr_max_zero (l : List ℚ) (h : ∀ x ∈ l, x = 0) : l.foldr max 0 = 0 := by
  induction l with
  | nil => rfl
  | cons x xs ih =>
    have hx : x = 0 := h x (List.mem_cons_self x xs)
    have hxs : xs.foldr max 0 = 0 := ih fun y hy => h y (List.mem_cons_of_mem x hy)
    simp [hx, hxs]

lemma maxWeight_eq_zero (cd : CalData)
    (h : ∀ t b f p, cd.visibility_weights t b f p = 0) : maxWeight cd = 0 := by
  apply foldr_max_zero
  intro x hx
  simp only [List.mem_flatMap, List.mem_map, List.mem_range] at hx
  obtain ⟨t, _, b, _, f, _, p, _, rfl⟩ := hx
  exact h t b f p

/-- Embedding of np.arctan2(y, x): the argument of the complex number with
real part x and imaginary part y.  Both functions range over (-pi, pi] on
exact inputs and send the origin to 0. -/
noncomputable def arctan2 (y x : ℝ) : ℝ :=
  Complex.arg ⟨x, y⟩

/-- The mean-phase angle computed at calibration_optimization.py lines
439-442: arctan2 of the mean of sin(angle(g)) and the mean of cos(angle(g))
over the Nants fitted gains (np.nanmean coincides with the plain mean here
because the optimizer output contains no NaN). -/
noncomputable def avgAngle (n : ℕ) (g : ℕ → ℂ) : ℝ :=
  arctan2
    ((∑ a ∈ Finset.range n, Real.sin (Complex.arg (g a))) / n)
    ((∑ a ∈ Finset.range n, Real.cos (Complex.arg (g a))) / n)

/-- The post-fit phase centering at calibration_optimization.py line 443:
every gain is multiplied by cos(avg_angle) - 1j * sin(avg_angle). -/
noncomputable def rotateGains (n : ℕ) (g : ℕ → ℂ) : ℕ → ℂ :=
  fun a => g a * ⟨Real.cos (avgAngle n g), -Real.sin (avgAngle n g)⟩

/-- Result of one invocation of the per-polarization single-frequency gain
driver: the written gains, the number of scipy.optimize.minimize
invocations, and whether the crosspolarization-phase step ran. -/
structure GainRunResult where
  gains : ℕ → ℕ → ℕ → Option ℂ
  minimizeCalls : ℕ
  crosspolApplied : Bool

/-- Body of the per-feed-polarization loop of
run_calibration_optimization_per_pol_single_freq (calibration_optimization.py
lines 402-445): slice to one polarization; if that slice is entirely flagged
the NaN fill of line 405 lands only in the per-polarization copy produced by
expand_in_polarization (numpy fancy indexing copies), so nothing reaches
caldata_obj.gains (first component none) and the optimizer is skipped;
otherwise the optimizer runs (the abstract pure function opt, counted as one
minimize call) and the mean-phase rotation is applied.  The outer none
embeds the IndexError raised when the feed polarization is absent from
vis_polarization_array. -/
noncomputable def solveFeedPol (opt : CalData → ℕ → ℂ) (cd : CalData) (p : ℕ) :
    Option (Option (ℕ → ℂ) × ℕ) :=
  (expandInPolarizationAt cd p).map fun slice =>
    if maxWeight slice = 0 then (none, 0)
    else (some (rotateGains slice.Nants (opt slice)), 1)

/-- Crosspolarization visibility codes chosen at calibration_optimization.py
lines 453-462 from the feed polarization ordering; none embeds the NameError
hit when feed_polarization_array is not an X/Y pair. -/
def crosspolPolarizations (cd : CalData) : Option (ℤ × ℤ) :=
  if cd.feed_polarization_array 0 = -5 ∧ cd.feed_polarization_array 1 = -6 then
    some (-7, -8)
  else if cd.feed_polarization_array 0 = -6 ∧ cd.feed_polarization_array 1 = -5 then
    some (-8, -7)
  else none

/-- Gains tensor after the per-polarization loop of
run_calibration_optimization_per_pol_single_freq: a solved feed polarization
carries its fit (the write-back of line 445); a fully flagged feed
polarization keeps the prior gains, because the NaN fill of line 405 only
touches the per-polarization copy and that branch performs no write-back;
entries beyond the feed polarization axis keep the prior gains. -/
def loopGains (cd : CalData) (fits : List (Option (ℕ → ℂ) × ℕ)) :
    ℕ → ℕ → ℕ → Option ℂ :=
  fun a f p =>
    if p < cd.N_feed_pols then
      match (fits.getD p (none, 0)).1 with
      | some fit => some (fit a)
      | none => cd.gains a f p
    else cd.gains a f p

/-- Crosspolarization-phase application of calibration_optimization.py lines
478-479: the gains at polarization index 0 are multiplied by
exp(-1j psi / 2) and those at index 1 by exp(1j psi / 2). -/
noncomputable def crosspolAdjust (psi : ℝ) (g1 : ℕ → ℕ → ℕ → Option ℂ) :
    ℕ → ℕ → ℕ → Option ℂ :=
  fun a f p =>
    if p = 0 then
      (g1 a f p).map fun g => g * Complex.exp (-(Complex.I * (psi : ℂ)) / 2)
    else if p = 1 then
      (g1 a f p).map fun g => g * Complex.exp (Complex.I * (psi : ℂ) / 2)
    else g1 a f p

/-- Embedding of run_calibration_optimization_per_pol_single_freq
(calibration_optimization.py lines 359-482).  The scipy optimizer is the
abstract pure function opt; setCrosspolPhase abstracts
cost_function_calculations.set_crosspol_phase, modelled from the spec as a
pure closed-form estimate (its module is not among the sources); it receives
the CalData object carrying the post-loop gains.  The result records the
gains written into caldata_obj.gains, the number of optimizer invocations
and whether the crosspol step ran; none embeds an uncaught exception. -/
noncomputable def runCalibrationOptimizationPerPolSingleFreq
    (opt : CalData → ℕ → ℂ) (setCrosspolPhase : CalData → ℝ)
    (get_crosspol_phase : Bool) (cd : CalData) : Option GainRunResult :=
  if maxWeight cd = 0 then
    some { gains := fun _ _ _ => none, minimizeCalls := 0, crosspolApplied := false }
  else
    ((List.range cd.N_feed_pols).mapM (solveFeedPol opt cd)).bind fun fits =>
      if get_crosspol_phase = true ∧ cd.N_feed_pols = 2 ∧ cd.N_vis_pols = 4 then
        (crosspolPolarizations cd).bind fun cps =>
          (firstIndexWhere (fun i => cd.vis_polarization_array i == cps.1)
              cd.N_vis_pols).bind fun _ =>
            (firstIndexWhere (fun i => cd.vis_polarization_array i == cps.2)
                cd.N_vis_pols).bind fun _ =>
              some { gains := crosspolAdjust
                       (setCrosspolPhase { cd with gains := loopGains cd fits })
                       (loopGains cd fits),
                     minimizeCalls := (fits.map fun pr => pr.2).sum,
                     crosspolApplied := true }
      else
        some { gains := loopGains cd fits,
               minimizeCalls := (fits.map fun pr => pr.2).sum,
               crosspolApplied := false }

/-- Merge step of the parallel branch of calibrate_caldata_per_pol
(calibration_wrappers.py lines 270-271): each pair (freq_ind, r) writes the
single-channel gains of r into the full gains tensor at frequency position
freq_ind; folding over the list performs the writes in list order. -/
def writeGainsFold (l : List (ℕ × GainRunResult))
    (g0 : ℕ → ℕ → ℕ → Option ℂ) : ℕ → ℕ → ℕ → Option ℂ :=
  l.foldl
    (fun g pr => fun a f2 p => if f2 = pr.1 then pr.2.gains a 0 p else g a f2 p)
    g0

/-- Sequential branch of calibrate_caldata_per_pol (calibration_wrappers.py
lines 273-284): for each frequency in order, solve the single-channel
sub-problem (the abstract pure solver sf, which embeds
run_calibration_optimization_per_pol_single_freq on that slice) and
immediately write its gains back at that frequency position, accumulating
the optimizer invocation count. -/
def calSeq (sf : CalData → Option GainRunResult) (cd : CalData) :
    Option ((ℕ → ℕ → ℕ → Option ℂ) × ℕ) :=
  (List.range cd.Nfreqs).foldl
    (fun acc f => acc.bind fun gk =>
      (sf (expandInFrequencyAt cd f)).map fun r =>
        (fun a f2 p => if f2 = f then r.gains a 0 p else gk.1 a f2 p,
         gk.2 + r.minimizeCalls))
    (some (cd.gains, 0))

/-- Parallel branch of calibrate_caldata_per_pol (calibration_wrappers.py
lines 253-272): pool.starmap returns the per-frequency results in argument
order (independent of worker completion order); the results are then written
back into the shared gains tensor indexed by frequency position. -/
def calPar (sf : CalData → Option GainRunResult) (cd : CalData) :
    Option ((ℕ → ℕ → ℕ → Option ℂ) × ℕ) :=
  ((List.range cd.Nfreqs).mapM fun f => sf (expandInFrequencyAt cd f)).map
    fun rs =>
      (writeGainsFold ((List.range cd.Nfreqs).zip rs) cd.gains,
       (rs.map fun r => r.minimizeCalls).sum)

/-- Embedding of calibrate_caldata_per_pol (calibration_wrappers.py lines
208-290): all-flagged input short-circuits to NaN gains with no optimizer
invocation; otherwise the per-frequency sub-problems are solved by the
parallel or the sequential branch.  The per-frequency solver sf is an
abstract pure function (each worker receives an independent slice and no
mutable state is shared, so the embedded solver is a function of the slice
alone). -/
def calibrateCaldataPerPol (sf : CalData → Option GainRunResult)
    (parallel : Bool) (cd : CalData) :
    Option ((ℕ → ℕ → ℕ → Option ℂ) × ℕ) :=
  if maxWeight cd = 0 then some (fun _ _ _ => none, 0)
  else if parallel then calPar sf cd else calSeq sf cd

/-- Result of run_abscal_optimization_single_freq: the written abscal
parameters and the number of scipy.optimize.minimize invocations. -/
structure AbscalRunResult where
  abscal_params : ℕ → ℕ → ℕ → Option ℝ
  minimizeCalls : ℕ

/-- Embedding of run_abscal_optimization_single_freq
(calibration_optimization.py lines 485-535): the object is expanded in
polarization and the optimizer (abstract pure function opt, giving the three
fitted parameters of a slice) runs once per feed polarization,
unconditionally; result.x is written into abscal_params[:, 0, feed_pol_ind].
The source contains no all-flagged check in this function. -/
def runAbscalOptimizationSingleFreq (opt : CalData → ℕ → ℝ) (cd : CalData) :
    Option AbscalRunResult :=
  ((List.range cd.N_feed_pols).mapM fun p => expandInPolarizationAt cd p).bind
    fun slices => some
      { abscal_params := fun i f p =>
          if i < 3 ∧ f = 0 ∧ p < cd.N_feed_pols then
            some (opt (slices.getD p cd) i)
          else cd.abscal_params i f p,
        minimizeCalls := cd.N_feed_pols }

/-- Embedding of the pyuvdata UVData object as consumed by apply_abscal:
dimensions, polarization codes, antenna bookkeeping, the east-north antenna
coordinates (the ECEF-to-ENU conversion is performed by pyuvdata, an
external collaborator, so antpos_en is carried as data) and the visibility
data array with axes (blt, spw, freq, pol). -/
structure UVData where
  Nblts : ℕ
  Nspws : ℕ
  Nfreqs : ℕ
  Npols : ℕ
  polarization_array : ℕ → ℤ
  ant_1_array : ℕ → ℕ
  ant_2_array : ℕ → ℕ
  antenna_numbers : ℕ → ℕ
  Nants : ℕ
  antpos_en : ℕ → ℝ × ℝ
  data_array : ℕ → ℕ → ℕ → ℕ → ℂ

/-- East-north coordinates of the first antenna of baseline b, as computed
by apply_abscal through the one-hot gains expansion matrix
(calibration_wrappers.py lines 484-503): the sum over antennas whose number
matches ant_1_array[b]. -/
noncomputable def ant1Position (uv : UVData) (b : ℕ) : ℝ × ℝ :=
  (∑ a ∈ Finset.range uv.Nants,
     if uv.antenna_numbers a = uv.ant_1_array b then (uv.antpos_en a).1 else 0,
   ∑ a ∈ Finset.range uv.Nants,
     if uv.antenna_numbers a = uv.ant_1_array b then (uv.antpos_en a).2 else 0)

/-- East-north coordinates of the second antenna of baseline b, analogous to
ant1Position with ant_2_array. -/
noncomputable def ant2Position (uv : UVData) (b : ℕ) : ℝ × ℝ :=
  (∑ a ∈ Finset.range uv.Nants,
     if uv.antenna_numbers a = uv.ant_2_array b then (uv.antpos_en a).1 else 0,
   ∑ a ∈ Finset.range uv.Nants,
     if uv.antenna_numbers a = uv.ant_2_array b then (uv.antpos_en a).2 else 0)

/-- Failure modes of apply_abscal: processExit embeds the sys.exit(1) call
issued for an unrecognized polarization code (calibration_wrappers.py lines
516-518), indexError the IndexError from np.where(...)[0][0] on a feed
polarization missing from feed_polarization_array. -/
inductive AbscalFailure where
  | processExit (code : ℕ)
  | indexError
deriving DecidableEq

/-- First index of pol in feed_polarization_array:
np.where(feed_polarization_array == pol)[0][0]. -/
def findFeedIndex (feedArr : ℕ → ℤ) (nFeed : ℕ) (pol : ℤ) : Option ℕ :=
  firstIndexWhere (fun i => feedArr i == pol) nFeed

/-- Feed-polarization index pair (pol1, pol2) selected by apply_abscal for a
visibility polarization code (calibration_wrappers.py lines 505-518):
-5 -> (X, X), -6 -> (Y, Y), -7 -> (X, Y), -8 -> (Y, X); any other code
reaches the sys.exit(1) branch. -/
def resolvePolPair (feedArr : ℕ → ℤ) (nFeed : ℕ) (vis_pol : ℤ) :
    Except AbscalFailure (ℕ × ℕ) :=
  if vis_pol = -5 then
    match findFeedIndex feedArr nFeed (-5) with
    | some i => .ok (i, i)
    | none => .error .indexError
  else if vis_pol = -6 then
    match findFeedIndex feedArr nFeed (-6) with
    | some i => .ok (i, i)
    | none => .error .indexError
  else if vis_pol = -7 then
    match findFeedIndex feedArr nFeed (-5), findFeedIndex feedArr nFeed (-6) with
    | some i, some j => .ok (i, j)
    | _, _ => .error .indexError
  else if vis_pol = -8 then
    match findFeedIndex feedArr nFeed (-6), findFeedIndex feedArr nFeed (-5) with
    | some i, some j => .ok (i, j)
    | _, _ => .error .indexError
  else .error (.processExit 1)

/-- Multiplicative abscal correction for baseline b and frequency f with
feed indices (pol1, pol2) (calibration_wrappers.py lines 520-534): the
amplitude product times exp(i (phix1 x1 - phix2 x2 + phiy1 y1 - phiy2 y2)).
The parameter array has axes (parameter, freq, feed_pol). -/
noncomputable def abscalFactor (uv : UVData) (params : ℕ → ℕ → ℕ → ℝ)
    (pol1 pol2 : ℕ) (b f : ℕ) : ℂ :=
  ((params 0 f pol1 * params 0 f pol2 : ℝ) : ℂ) *
    Complex.exp (Complex.I *
      ((params 1 f pol1 * (ant1Position uv b).1
        - params 1 f pol2 * (ant2Position uv b).1
        + params 2 f pol1 * (ant1Position uv b).2
        - params 2 f pol2 * (ant2Position uv b).2 : ℝ) : ℂ))

/-- In-place multiplication of the data array at one visibility polarization
index: data_array[:, :, :, polInd] *= amp_term * phase_correction
(calibration_wrappers.py lines 536-543). -/
noncomputable def applyAbscalPolUpdate (uv : UVData) (params : ℕ → ℕ → ℕ → ℝ)
    (polInd pol1 pol2 : ℕ) (d : ℕ → ℕ → ℕ → ℕ → ℂ) : ℕ → ℕ → ℕ → ℕ → ℂ :=
  fun b s f pi =>
    if pi = polInd then d b s f pi * abscalFactor uv params pol1 pol2 b f
    else d b s f pi

/-- Loop of apply_abscal over the visibility polarization axis.  The state
is the pair (caller's uvdata object, the uvdata_new copy); with inplace the
loop multiplies into the caller's object, otherwise into the copy.  Metadata
(positions, polarization codes) is always read from the original uv. -/
noncomputable def applyAbscalLoop (uv : UVData) (params : ℕ → ℕ → ℕ → ℝ)
    (feedArr : ℕ → ℤ) (nFeed : ℕ) (inplace : Bool) :
    UVData × UVData → List ℕ → Except AbscalFailure (UVData × UVData)
  | st, [] => .ok st
  | st, polInd :: rest =>
    (resolvePolPair feedArr nFeed (uv.polarization_array polInd)).bind fun pq =>
      applyAbscalLoop uv params feedArr nFeed inplace
        (if inplace then
          ({ st.1 with data_array :=
               applyAbscalPolUpdate uv params polInd pq.1 pq.2 st.1.data_array },
           st.2)
        else
          (st.1,
           { st.2 with data_array :=
               applyAbscalPolUpdate uv params polInd pq.1 pq.2 st.2.data_array }))
        rest

/-- Embedding of apply_abscal (calibration_wrappers.py lines 455-546).  The
result pairs the caller's uvdata object as it stands after the call with the
returned value: with inplace=False the copy uvdata_new receives the
corrections and is returned, with inplace=True the caller's object is
mutated and nothing is returned. -/
noncomputable def applyAbscal (uv : UVData) (params : ℕ → ℕ → ℕ → ℝ)
    (feedArr : ℕ → ℤ) (nFeed : ℕ) (inplace : Bool) :
    Except AbscalFailure (UVData × Option UVData) :=
  (applyAbscalLoop uv params feedArr nFeed inplace (uv, uv)
      (List.range uv.Npols)).map
    fun st => if inplace then (st.1, none) else (st.1, some st.2)

/-- Baseline length computed by get_dwcal_weights_from_delay_spectra at
calibration_wrappers.py line 577: sqrt of the squared sum of the two UV
coordinates. -/
noncomputable def blLength (cd : CalData) (b : ℕ) : ℝ :=
  Real.sqrt ((cd.uv_array b).1 ^ 2 + (cd.uv_array b).2 ^ 2)

/-- Embedding of np.fft.fftfreq(n, d): sample frequency at index k, the
first half of the indices carrying nonnegative frequencies and the rest the
negative ones. -/
noncomputable def fftfreq (n : ℕ) (d : ℝ) (k : ℕ) : ℝ :=
  (if 2 * k < n then (k : ℝ) else (k : ℝ) - n) / (n * d)

/-- np.max of a list of indices; none embeds the ValueError numpy raises
when np.max is applied to an empty array. -/
def listMax? (l : List ℕ) : Option ℕ :=
  match l with
  | [] => none
  | x :: xs => some (xs.foldl max x)

/-- Candidate bin indices np.where(bl_length_bin_edges <= bl_length)[0] at
calibration_wrappers.py line 589. -/
noncomputable def binCandidates (edges : ℕ → ℝ) (nEdges : ℕ) (len : ℝ) :
    List ℕ :=
  (List.range nEdges).filter fun i => decide (edges i ≤ len)

/-- Bin index selection at calibration_wrappers.py line 589:
np.max(np.where(bl_length_bin_edges <= bl_length)[0]).  none embeds the
ValueError raised when no bin edge lies at or below the baseline length
(a baseline shorter than the lowest edge). -/
noncomputable def binIndexFor (edges : ℕ → ℝ) (nEdges : ℕ) (len : ℝ) :
    Option ℕ :=
  listMax? (binCandidates edges nEdges len)

/-- Embedding of np.interp(x, xp, fp) over n samples: clamps to the end
values outside the sample range and interpolates linearly inside. -/
noncomputable def npInterp (x : ℝ) (xp fp : ℕ → ℝ) (n : ℕ) : ℝ :=
  if n = 0 then 0
  else if x ≤ xp 0 then fp 0
  else if xp (n - 1) ≤ x then fp (n - 1)
  else
    match listMax? ((List.range n).filter fun j => decide (xp j ≤ x)) with
    | none => fp 0
    | some j => fp j + (fp (j + 1) - fp j) * (x - xp j) / (xp (j + 1) - xp j)

/-- Row of dwcal_variance_use for one baseline (calibration_wrappers.py
lines 581-599): the bin index is selected from the baseline length; a
baseline at or beyond the last bin edge is skipped with a warning, leaving
its row at the zero initialization; otherwise the binned variance curve is
resampled onto the oversampled delay axis by linear interpolation.  none
embeds the ValueError from a baseline below the lowest edge. -/
noncomputable def dwcalVarianceRow (cd : CalData) (dsv : ℕ → ℕ → ℝ)
    (edges : ℕ → ℝ) (nEdges : ℕ) (delayAxis : ℕ → ℝ) (nDelays : ℕ)
    (os : ℕ) (b : ℕ) : Option (ℕ → ℝ) :=
  (binIndexFor edges nEdges (blLength cd b)).map fun binInd =>
    if binInd = nEdges - 1 ∨ ¬ edges (binInd + 1) > blLength cd b then
      fun _ => 0
    else
      fun k =>
        npInterp (fftfreq (cd.Nfreqs * os) cd.channel_width k) delayAxis
          (fun j => dsv binInd j) nDelays

/-- All per-baseline variance rows, in baseline order. -/
noncomputable def dwcalRows (cd : CalData) (dsv : ℕ → ℕ → ℝ) (edges : ℕ → ℝ)
    (nEdges : ℕ) (delayAxis : ℕ → ℝ) (nDelays : ℕ) (os : ℕ) :
    Option (List (ℕ → ℝ)) :=
  (List.range cd.Nbls).mapM
    (dwcalVarianceRow cd dsv edges nEdges delayAxis nDelays os)

/-- Embedding of np.fft.ifft over n samples at output index k:
(1/n) sum_j x_j exp(2 pi i j k / n). -/
noncomputable def npIfft (n : ℕ) (x : ℕ → ℂ) (k : ℕ) : ℂ :=
  (∑ j ∈ Finset.range n,
    x j * Complex.exp (2 * Real.pi * Complex.I * j * k / n)) / n

/-- Frequency weighting at calibration_wrappers.py lines 601-604: the
inverse FFT of the reciprocal variance rows along the oversampled delay
axis; indices are used only below Nfreqs (the truncation of line 602).
In this exact embedding the reciprocal of a zero (skipped) row is zero,
whereas IEEE arithmetic produces inf there. -/
noncomputable def dwcalFreqWeighting (cd : CalData) (rows : List (ℕ → ℝ))
    (os : ℕ) (b k : ℕ) : ℂ :=
  npIfft (cd.Nfreqs * os) (fun j => ((1 / rows.getD b (fun _ => 0) j : ℝ) : ℂ)) k

/-- Per-baseline frequency-frequency kernel before normalization
(calibration_wrappers.py lines 605-615): entry (f1, f2) is the weighting at
lag abs(f1 - f2), conjugated above the diagonal. -/
noncomputable def dwcalWeightMatPre (cd : CalData) (rows : List (ℕ → ℝ))
    (os : ℕ) (b f1 f2 : ℕ) : ℂ :=
  if f1 < f2 then starRingEnd ℂ (dwcalFreqWeighting cd rows os b (f2 - f1))
  else dwcalFreqWeighting cd rows os b (f1 - f2)

/-- Sum over baselines of the traces of the per-baseline kernels
(calibration_wrappers.py line 619). -/
noncomputable def dwcalTraceSum (cd : CalData) (rows : List (ℕ → ℝ))
    (os : ℕ) : ℂ :=
  ∑ b ∈ Finset.range cd.Nbls, ∑ f ∈ Finset.range cd.Nfreqs,
    dwcalWeightMatPre cd rows os b f f

/-- Embedding of get_dwcal_weights_from_delay_spectra
(calibration_wrappers.py lines 549-627): computes the per-baseline kernels,
rescales them by Nfreqs * Nbls over the trace sum so their normalization
matches the identity matrix, and broadcasts over the time and polarization
axes into dwcal_inv_covariance with axes (time, bl, freq, freq, pol).  none
embeds the ValueError of a baseline below the lowest bin edge. -/
noncomputable def getDwcalWeightsFromDelaySpectra (cd : CalData)
    (dsv : ℕ → ℕ → ℝ) (edges : ℕ → ℝ) (nEdges : ℕ) (delayAxis : ℕ → ℝ)
    (nDelays : ℕ) (os : ℕ) : Option (ℕ → ℕ → ℕ → ℕ → ℕ → ℂ) :=
  (dwcalRows cd dsv edges nEdges delayAxis nDelays os).map fun rows =>
    fun _t b f1 f2 _p =>
      ((cd.Nfreqs : ℂ) * (cd.Nbls : ℂ) / dwcalTraceSum cd rows os) *
        dwcalWeightMatPre cd rows os b f1 f2

/-- Concrete fully flagged CalData input used by witnesses and
counterexamples: one antenna, baseline, time and channel, two feed and four
visibility polarizations in the standard AIPS order, every weight zero. -/
def zeroWeightCal : CalData where
  Nants := 1
  Nbls := 1
  Ntimes := 1
  Nfreqs := 1
  N_feed_pols := 2
  N_vis_pols := 4
  feed_polarization_array := fun i => if i = 0 then -5 else -6
  vis_polarization_array := fun i =>
    if i = 0 then -5 else if i = 1 then -6 else if i = 2 then -7 else -8
  model_visibilities := fun _ _ _ _ => 1
  data_visibilities := fun _ _ _ _ => 1
  visibility_weights := fun _ _ _ _ => 0
  gains := fun _ _ _ => some 1
  abscal_params := fun i _ _ => if i = 0 then some 1 else some 0
  uv_array := fun _ => (1, 0)
  channel_width := 1

/-- C1: when the visibility_weights tensor is entirely zero, both
run_calibration_optimization_per_pol_single_freq and the multi-frequency
driver calibrate_caldata_per_pol write NaN into every gain entry and return
with zero invocations of scipy.optimize.minimize, for any optimizer,
crosspol-phase estimate, flag settings and per-frequency solver. -/
theorem c1_all_flagged_nan_no_optimizer
    (opt : CalData → ℕ → ℂ) (setCrosspolPhase : CalData → ℝ)
    (get_crosspol_phase : Bool) (sf : CalData → Option GainRunResult)
    (parallel : Bool) (cd : CalData)
    (h : ∀ t b f p, cd.visibility_weights t b f p = 0) :
    runCalibrationOptimizationPerPolSingleFreq opt setCrosspolPhase
        get_crosspol_phase cd =
      some { gains := fun _ _ _ => none, minimizeCalls := 0,
             crosspolApplied := false } ∧
    calibrateCaldataPerPol sf parallel cd = some (fun _ _ _ => none, 0) := by
  have h0 : maxWeight cd = 0 := maxWeight_eq_zero cd h
  refine ⟨?_, ?_⟩
  · simp [runCalibrationOptimizationPerPolSingleFreq, h0]
  · simp [calibrateCaldataPerPol, h0]

/-- Witness for C1 at the concrete fully flagged input. -/
theorem c1_all_flagged_nan_no_optimizer_witness :
    (∀ t b f p, zeroWeightCal.visibility_weights t b f p = 0) ∧
    (runCalibrationOptimizationPerPolSingleFreq (fun _ _ => 1) (fun _ => 0)
        true zeroWeightCal =
      some { gains := fun _ _ _ => none, minimizeCalls := 0,
             crosspolApplied := false } ∧
     calibrateCaldataPerPol (fun _ => none) true zeroWeightCal =
       some (fun _ _ _ => none, 0)) :=
  ⟨fun _ _ _ _ => rfl,
   c1_all_flagged_nan_no_optimizer (fun _ _ => 1) (fun _ => 0) true
     (fun _ => none) true zeroWeightCal (fun _ _ _ _ => rfl)⟩

lemma avgAngle_eq_arg (n : ℕ) (g : ℕ → ℂ) (hn : 0 < n) :
    avgAngle n g = Complex.arg (∑ a ∈ Finset.range n,
      Complex.exp ((Complex.arg (g a) : ℂ) * Complex.I)) := by
  have hw : (⟨(∑ a ∈ Finset.range n, Real.cos (Complex.arg (g a))) / n,
              (∑ a ∈ Finset.range n, Real.sin (Complex.arg (g a))) / n⟩ : ℂ) =
      (((n : ℝ)⁻¹ : ℝ) : ℂ) * ∑ a ∈ Finset.range n,
        Complex.exp ((Complex.arg (g a) : ℂ) * Complex.I) := by
    apply Complex.ext
    · simp only [Complex.mul_re, Complex.ofReal_re, Complex.ofReal_im, zero_mul,
        sub_zero, Complex.re_sum, Complex.exp_ofReal_mul_I_re]
      exact div_eq_inv_mul _ _
    · simp only [Complex.mul_im, Complex.ofReal_re, Complex.ofReal_im, zero_mul,
        add_zero, Complex.im_sum, Complex.exp_ofReal_mul_I_im]
      exact div_eq_inv_mul _ _
  have hpos : (0 : ℝ) < (n : ℝ)⁻¹ :=
    inv_pos.mpr (by exact_mod_cast hn)
  unfold avgAngle arctan2
  rw [hw, Complex.arg_real_mul _ hpos]

lemma rot_factor_eq_exp (α : ℝ) :
    (⟨Real.cos α, -Real.sin α⟩ : ℂ) =
      Complex.exp (((-α : ℝ) : ℂ) * Complex.I) := by
  apply Complex.ext
  · show Real.cos α = (Complex.exp _).re
    rw [Complex.exp_ofReal_mul_I_re, Real.cos_neg]
  · show -Real.sin α = (Complex.exp _).im
    rw [Complex.exp_ofReal_mul_I_im, Real.sin_neg]

lemma exp_arg_mul_I_of_ne_zero {z : ℂ} (hz : z ≠ 0) :
    Complex.exp ((Complex.arg z : ℂ) * Complex.I) =
      z / ((Complex.abs z : ℝ) : ℂ) := by
  have habs : ((Complex.abs z : ℝ) : ℂ) ≠ 0 :=
    Complex.ofReal_ne_zero.mpr (Complex.abs.ne_zero hz)
  rw [eq_div_iff habs, mul_comm]
  exact Complex.abs_mul_exp_arg_mul_I z

lemma sum_exp_arg_rotate (n : ℕ) (g : ℕ → ℂ) (hg : ∀ a < n, g a ≠ 0) :
    (∑ a ∈ Finset.range n,
        Complex.exp ((Complex.arg (rotateGains n g a) : ℂ) * Complex.I)) =
      Complex.exp (((-(avgAngle n g) : ℝ) : ℂ) * Complex.I) *
        ∑ a ∈ Finset.range n,
          Complex.exp ((Complex.arg (g a) : ℂ) * Complex.I) := by
  rw [Finset.mul_sum]
  apply Finset.sum_congr rfl
  intro a ha
  have hga : g a ≠ 0 := hg a (Finset.mem_range.mp ha)
  have hc : (⟨Real.cos (avgAngle n g), -Real.sin (avgAngle n g)⟩ : ℂ) =
      Complex.exp (((-(avgAngle n g) : ℝ) : ℂ) * Complex.I) :=
    rot_factor_eq_exp (avgAngle n g)
  have hcne : Complex.exp (((-(avgAngle n g) : ℝ) : ℂ) * Complex.I) ≠ 0 :=
    Complex.exp_ne_zero _
  have hzne : rotateGains n g a ≠ 0 := by
    unfold rotateGains
    rw [hc]
    exact mul_ne_zero hga hcne
  rw [exp_arg_mul_I_of_ne_zero hzne, exp_arg_mul_I_of_ne_zero hga]
  unfold rotateGains
  rw [hc, map_mul Complex.abs, Complex.abs_exp_ofReal_mul_I, mul_one]
  ring

lemma exp_neg_arg_mul_self (z : ℂ) :
    Complex.exp (((-(Complex.arg z) : ℝ) : ℂ) * Complex.I) * z =
      ((Complex.abs z : ℝ) : ℂ) := by
  have hzero : ((-(Complex.arg z) : ℝ) : ℂ) * Complex.I +
      (Complex.arg z : ℂ) * Complex.I = 0 := by
    push_cast
    ring
  calc
    Complex.exp (((-(Complex.arg z) : ℝ) : ℂ) * Complex.I) * z =
        Complex.exp (((-(Complex.arg z) : ℝ) : ℂ) * Complex.I) *
          (((Complex.abs z : ℝ) : ℂ) *
            Complex.exp ((Complex.arg z : ℂ) * Complex.I)) := by
      rw [Complex.abs_mul_exp_arg_mul_I]
    _ = ((Complex.abs z : ℝ) : ℂ) *
          (Complex.exp (((-(Complex.arg z) : ℝ) : ℂ) * Complex.I) *
            Complex.exp ((Complex.arg z : ℂ) * Complex.I)) := by
      ring
    _ = ((Complex.abs z : ℝ) : ℂ) *
          Complex.exp (((-(Complex.arg z) : ℝ) : ℂ) * Complex.I +
            (Complex.arg z : ℂ) * Complex.I) := by
      rw [Complex.exp_add]
    _ = ((Complex.abs z : ℝ) : ℂ) := by
      rw [hzero, Complex.exp_zero, mul_one]

/-- C3: after the driver's post-processing rotation by the mean phase, the
circular mean of the gain angles (the very arctan2-of-means expression the
driver computes) is exactly zero in exact arithmetic, for every nonempty
gain vector with nonvanishing entries. -/
theorem c3_phase_centering (n : ℕ) (g : ℕ → ℂ) (hn : 0 < n)
    (hg : ∀ a < n, g a ≠ 0) : avgAngle n (rotateGains n g) = 0 := by
  rw [avgAngle_eq_arg n (rotateGains n g) hn, sum_exp_arg_rotate n g hg]
  set w := ∑ a ∈ Finset.range n,
    Complex.exp ((Complex.arg (g a) : ℂ) * Complex.I) with hwdef
  by_cases hw0 : w = 0
  · rw [hw0, mul_zero, Complex.arg_zero]
  · have hα : avgAngle n g = Complex.arg w := avgAngle_eq_arg n g hn
    rw [hα, exp_neg_arg_mul_self w]
    exact Complex.arg_ofReal_of_nonneg (Complex.abs.nonneg w)

/-- Witness for C3 at the one-element gain vector with unit gain. -/
theorem c3_phase_centering_witness :
    0 < 1 ∧ avgAngle 1 (rotateGains 1 fun _ => (1 : ℂ)) = 0 :=
  ⟨Nat.one_pos,
   c3_phase_centering 1 (fun _ => (1 : ℂ)) Nat.one_pos
     (fun _ _ => one_ne_zero)⟩

lemma foldl_bind_none {α β : Type} (h : β → α → Option α) (l : List β) :
    l.foldl (fun acc f => Option.bind acc (h f)) none = none := by
  induction l with
  | nil => rfl
  | cons x xs ih => simpa using ih

lemma calSeq_aux (sf : CalData → Option GainRunResult) (cd : CalData)
    (l : List ℕ) (g0 : ℕ → ℕ → ℕ → Option ℂ) (k0 : ℕ) :
    l.foldl
        (fun acc f => acc.bind fun gk =>
          (sf (expandInFrequencyAt cd f)).map fun r =>
            (fun a f2 p => if f2 = f then r.gains a 0 p else gk.1 a f2 p,
             gk.2 + r.minimizeCalls))
        (some (g0, k0)) =
      (l.mapM fun f => sf (expandInFrequencyAt cd f)).map fun rs =>
        (writeGainsFold (l.zip rs) g0,
         k0 + (rs.map fun r => r.minimizeCalls).sum) := by
  induction l generalizing g0 k0 with
  | nil =>
    rw [List.mapM_nil]
    simp [writeGainsFold]
  | cons x xs ih =>
    cases hx : sf (expandInFrequencyAt cd x) with
    | none =>
      rw [List.foldl_cons, List.mapM_cons]
      simp only [hx, Option.some_bind, Option.map_none']
      exact foldl_bind_none
        (fun (f : ℕ) (gk : (ℕ → ℕ → ℕ → Option ℂ) × ℕ) =>
          (sf (expandInFrequencyAt cd f)).map fun r =>
            (fun a f2 p => if f2 = f then r.gains a 0 p else gk.1 a f2 p,
             gk.2 + r.minimizeCalls)) xs
    | some r =>
      rw [List.foldl_cons, List.mapM_cons]
      simp only [hx, Option.some_bind, Option.map_some']
      rw [ih]
      cases hxs : xs.mapM fun f => sf (expandInFrequencyAt cd f) with
      | none => rfl
      | some rs =>
        simp [writeGainsFold, Nat.add_assoc]

lemma calPar_eq_calSeq (sf : CalData → Option GainRunResult) (cd : CalData) :
    calPar sf cd = calSeq sf cd := by
  unfold calPar calSeq
  rw [calSeq_aux sf cd (List.range cd.Nfreqs) cd.gains 0]
  cases (List.range cd.Nfreqs).mapM fun f => sf (expandInFrequencyAt cd f) with
  | none => rfl
  | some rs => simp

lemma mem_of_mem_map_fst_zip {α β : Type} {x : α} {l1 : List α} {l2 : List β}
    (h : x ∈ (l1.zip l2).map Prod.fst) : x ∈ l1 := by
  obtain ⟨pr, hpr, rfl⟩ := List.mem_map.mp h
  exact (List.of_mem_zip hpr).1

lemma nodup_map_fst_zip {β : Type} (l1 : List ℕ) (l2 : List β)
    (h : l1.Nodup) : ((l1.zip l2).map Prod.fst).Nodup := by
  induction l1 generalizing l2 with
  | nil => simp
  | cons x xs ih =>
    cases l2 with
    | nil => simp
    | cons y ys =>
      rw [List.zip_cons_cons, List.map_cons, List.nodup_cons]
      refine ⟨fun hx => ?_, ih ys (List.nodup_cons.mp h).2⟩
      exact (List.nodup_cons.mp h).1 (mem_of_mem_map_fst_zip hx)

lemma key_determines_entry {β : Type} (l : List (ℕ × β))
    (h : (l.map Prod.fst).Nodup) :
    ∀ x ∈ l, ∀ y ∈ l, x.1 = y.1 → x = y := by
  induction l with
  | nil => intro x hx; exact absurd hx (List.not_mem_nil x)
  | cons z zs ih =>
    rw [List.map_cons, List.nodup_cons] at h
    intro x hx y hy hxy
    rcases List.mem_cons.mp hx with hx1 | hx2 <;>
      rcases List.mem_cons.mp hy with hy1 | hy2
    · rw [hx1, hy1]
    · exact absurd (hxy ▸ List.mem_map_of_mem Prod.fst hy2) (hx1 ▸ h.1)
    · exact absurd (hxy ▸ List.mem_map_of_mem Prod.fst hx2) (hy1 ▸ h.1)
    · exact ih h.2 x hx2 y hy2 hxy

lemma writeGainsFold_perm (l1 l2 : List (ℕ × GainRunResult))
    (hp : l1.Perm l2) (hinj : ∀ x ∈ l1, ∀ y ∈ l1, x.1 = y.1 → x = y)
    (g0 : ℕ → ℕ → ℕ → Option ℂ) :
    writeGainsFold l1 g0 = writeGainsFold l2 g0 := by
  unfold writeGainsFold
  refine hp.foldl_eq' ?_ g0
  intro x hx y hy z
  by_cases hxy : x = y
  · rw [hxy]
  · have hne : x.1 ≠ y.1 := fun hfst => hxy (hinj x hx y hy hfst)
    funext a f2 p
    by_cases h1 : f2 = x.1 <;> by_cases h2 : f2 = y.1
    · exact absurd (h1.symm.trans h2) hne
    · simp [h1, h2, hne, Ne.symm hne]
    · simp [h1, h2, hne, Ne.symm hne]
    · simp [h1, h2]

/-- C2: the parallel branch of calibrate_caldata_per_pol computes exactly
the same result as the sequential branch for every per-frequency solver and
every input, and the merge of per-frequency results into the shared gains
tensor is indexed by frequency position: folding the writes in any
permutation of the completion order yields the same gains array. -/
theorem c2_parallel_equals_sequential (sf : CalData → Option GainRunResult)
    (cd : CalData) (rs : List GainRunResult)
    (order : List (ℕ × GainRunResult))
    (hperm : order.Perm ((List.range cd.Nfreqs).zip rs)) :
    calibrateCaldataPerPol sf true cd = calibrateCaldataPerPol sf false cd ∧
    writeGainsFold order cd.gains =
      writeGainsFold ((List.range cd.Nfreqs).zip rs) cd.gains := by
  constructor
  · unfold calibrateCaldataPerPol
    by_cases h0 : maxWeight cd = 0
    · simp [h0]
    · simp [h0, calPar_eq_calSeq]
  · have hnodup : (((List.range cd.Nfreqs).zip rs).map Prod.fst).Nodup :=
      nodup_map_fst_zip (List.range cd.Nfreqs) rs (List.nodup_range cd.Nfreqs)
    have hinj2 := key_determines_entry ((List.range cd.Nfreqs).zip rs) hnodup
    have hinj1 : ∀ x ∈ order, ∀ y ∈ order, x.1 = y.1 → x = y := by
      intro x hx y hy hxy
      exact hinj2 x (hperm.subset hx) y (hperm.subset hy) hxy
    exact writeGainsFold_perm order ((List.range cd.Nfreqs).zip rs) hperm
      hinj1 cd.gains

/-- Witness for C2: a two-channel input whose per-frequency results are
merged in reversed completion order. -/
theorem c2_parallel_equals_sequential_witness :
    ([((1 : ℕ), ({ gains := fun _ _ _ => some 2, minimizeCalls := 1,
                   crosspolApplied := false } : GainRunResult)),
      ((0 : ℕ), ({ gains := fun _ _ _ => some 3, minimizeCalls := 1,
                   crosspolApplied := false } : GainRunResult))].Perm
      ((List.range ({ zeroWeightCal with Nfreqs := 2 } : CalData).Nfreqs).zip
        [{ gains := fun _ _ _ => some 3, minimizeCalls := 1,
           crosspolApplied := false },
         { gains := fun _ _ _ => some 2, minimizeCalls := 1,
           crosspolApplied := false }])) ∧
    (calibrateCaldataPerPol (fun _ => none) true
        { zeroWeightCal with Nfreqs := 2 } =
      calibrateCaldataPerPol (fun _ => none) false
        { zeroWeightCal with Nfreqs := 2 } ∧
     writeGainsFold
        [((1 : ℕ), { gains := fun _ _ _ => some 2, minimizeCalls := 1,
                     crosspolApplied := false }),
         ((0 : ℕ), { gains := fun _ _ _ => some 3, minimizeCalls := 1,
                     crosspolApplied := false })]
        ({ zeroWeightCal with Nfreqs := 2 } : CalData).gains =
       writeGainsFold
        ((List.range ({ zeroWeightCal with Nfreqs := 2 } : CalData).Nfreqs).zip
          [{ gains := fun _ _ _ => some 3, minimizeCalls := 1,
             crosspolApplied := false },
           { gains := fun _ _ _ => some 2, minimizeCalls := 1,
             crosspolApplied := false }])
        ({ zeroWeightCal with Nfreqs := 2 } : CalData).gains) :=
  ⟨List.Perm.swap _ _ _,
   c2_parallel_equals_sequential (fun _ => none)
     { zeroWeightCal with Nfreqs := 2 } _ _ (List.Perm.swap _ _ _)⟩

lemma mapM_isSome {α β : Type} (f : α → Option β) (l : List α)
    (h : ∀ x ∈ l, (f x).isSome = true) : ∃ ys, l.mapM f = some ys := by
  induction l with
  | nil => exact ⟨[], rfl⟩
  | cons x xs ih =>
    obtain ⟨y, hy⟩ := Option.isSome_iff_exists.mp (h x (List.mem_cons_self x xs))
    obtain ⟨ys, hys⟩ := ih fun z hz => h z (List.mem_cons_of_mem x hz)
    refine ⟨y :: ys, ?_⟩
    rw [List.mapM_cons, hy, hys]
    rfl

lemma solveFeedPol_isSome (opt : CalData → ℕ → ℂ) (cd : CalData) (p : ℕ)
    (h : (firstIndexWhere
        (fun i => cd.vis_polarization_array i == cd.feed_polarization_array p)
        cd.N_vis_pols).isSome = true) :
    (solveFeedPol opt cd p).isSome = true := by
  unfold solveFeedPol expandInPolarizationAt
  obtain ⟨i, hi⟩ := Option.isSome_iff_exists.mp h
  rw [hi]
  rfl

/-- C4 counterexample: a fully flagged input with two feed polarizations,
four visibility polarizations and get_crosspol_phase set satisfies all three
conditions of the claim, yet the driver short-circuits at the all-flagged
check and the crosspolarization-phase step is not executed. -/
theorem c4_crosspol_iff_counterexample :
    runCalibrationOptimizationPerPolSingleFreq (fun _ _ => 1) (fun _ => 0)
        true zeroWeightCal =
      some { gains := fun _ _ _ => none, minimizeCalls := 0,
             crosspolApplied := false } ∧
    zeroWeightCal.N_feed_pols = 2 ∧ zeroWeightCal.N_vis_pols = 4 := by
  refine ⟨?_, rfl, rfl⟩
  simp [runCalibrationOptimizationPerPolSingleFreq,
    maxWeight_eq_zero zeroWeightCal fun _ _ _ _ => rfl]

/-- C4 amended: provided the input is not entirely flagged, every feed
polarization occurs among the visibility polarizations, and (when the
crosspol conditions hold) the feed array is an X/Y pair whose crosspol
visibility codes are present, the crosspolarization-phase step executes if
and only if get_crosspol_phase is set, N_feed_pols = 2 and N_vis_pols = 4;
when it executes it multiplies the X-feed gains by exp(-i psi / 2) and the
Y-feed gains by exp(i psi / 2) for a single scalar phase psi, relative to
the gains of the run without the crosspol step, and it makes no further
optimizer call (the minimize count equals that of the run with
get_crosspol_phase unset). -/
theorem c4_crosspol_condition_amended (opt : CalData → ℕ → ℂ)
    (scp : CalData → ℝ) (g : Bool) (cd : CalData)
    (hflag : ¬ maxWeight cd = 0)
    (hpols : ∀ p, p < cd.N_feed_pols →
      (firstIndexWhere
        (fun i => cd.vis_polarization_array i == cd.feed_polarization_array p)
        cd.N_vis_pols).isSome = true)
    (hcross : (g = true ∧ cd.N_feed_pols = 2 ∧ cd.N_vis_pols = 4) →
      ∃ cps, crosspolPolarizations cd = some cps ∧
        (firstIndexWhere (fun i => cd.vis_polarization_array i == cps.1)
          cd.N_vis_pols).isSome = true ∧
        (firstIndexWhere (fun i => cd.vis_polarization_array i == cps.2)
          cd.N_vis_pols).isSome = true) :
    ∃ r r0,
      runCalibrationOptimizationPerPolSingleFreq opt scp g cd = some r ∧
      runCalibrationOptimizationPerPolSingleFreq opt scp false cd = some r0 ∧
      (r.crosspolApplied = true ↔
        (g = true ∧ cd.N_feed_pols = 2 ∧ cd.N_vis_pols = 4)) ∧
      r.minimizeCalls = r0.minimizeCalls ∧
      (r.crosspolApplied = true → ∃ psi : ℝ,
        (∀ a f, r.gains a f (if cd.feed_polarization_array 0 = -5 then 0 else 1) =
          (r0.gains a f (if cd.feed_polarization_array 0 = -5 then 0 else 1)).map
            fun gm => gm * Complex.exp (-(Complex.I * (psi : ℂ)) / 2)) ∧
        (∀ a f, r.gains a f (if cd.feed_polarization_array 0 = -5 then 1 else 0) =
          (r0.gains a f (if cd.feed_polarization_array 0 = -5 then 1 else 0)).map
            fun gm => gm * Complex.exp (Complex.I * (psi : ℂ) / 2))) := by
  obtain ⟨fits, hfits⟩ := mapM_isSome (solveFeedPol opt cd)
    (List.range cd.N_feed_pols)
    fun p hp => solveFeedPol_isSome opt cd p
      (hpols p (List.mem_range.mp hp))
  have hfalse : ¬ ((false = true) ∧ cd.N_feed_pols = 2 ∧ cd.N_vis_pols = 4) := by
    intro h
    exact Bool.false_ne_true h.1
  by_cases hC : g = true ∧ cd.N_feed_pols = 2 ∧ cd.N_vis_pols = 4
  · obtain ⟨cps, hcps, h7, h8⟩ := hcross hC
    obtain ⟨i7, hi7⟩ := Option.isSome_iff_exists.mp h7
    obtain ⟨i8, hi8⟩ := Option.isSome_iff_exists.mp h8
    unfold runCalibrationOptimizationPerPolSingleFreq
    simp only [if_neg hflag, hfits, Option.some_bind, if_pos hC,
      if_neg hfalse, hcps, hi7, hi8]
    refine ⟨_, _, rfl, rfl, by simp [hC], rfl, fun _ => ?_⟩
    by_cases hx5 : cd.feed_polarization_array 0 = -5
    · refine ⟨scp { cd with gains := loopGains cd fits }, ?_, ?_⟩
      · intro a f
        simp only [if_pos hx5]
        rfl
      · intro a f
        simp only [if_pos hx5]
        rfl
    · refine ⟨-(scp { cd with gains := loopGains cd fits }), ?_, ?_⟩
      · intro a f
        simp only [if_neg hx5, crosspolAdjust]
        norm_num
      · intro a f
        simp only [if_neg hx5, crosspolAdjust]
        norm_num
  · unfold runCalibrationOptimizationPerPolSingleFreq
    simp only [if_neg hflag, hfits, Option.some_bind, if_neg hC,
      if_neg hfalse]
    refine ⟨_, _, rfl, rfl, by simp [hC], rfl, fun hr => ?_⟩
    exact absurd hr (by simp)

/-- Concrete unflagged CalData input: like zeroWeightCal but with every
visibility weight equal to one. -/
def onesWeightCal : CalData :=
  { zeroWeightCal with visibility_weights := fun _ _ _ _ => 1 }

/-- Witness for the amended C4 at the concrete unflagged input with feed
polarizations (X, Y) and all four visibility polarizations present. -/
theorem c4_crosspol_condition_amended_witness :
    (¬ maxWeight onesWeightCal = 0) ∧
    (∃ r r0,
      runCalibrationOptimizationPerPolSingleFreq (fun _ _ => 1) (fun _ => 0)
          true onesWeightCal = some r ∧
      runCalibrationOptimizationPerPolSingleFreq (fun _ _ => 1) (fun _ => 0)
          false onesWeightCal = some r0 ∧
      (r.crosspolApplied = true ↔
        (true = true ∧ onesWeightCal.N_feed_pols = 2 ∧
          onesWeightCal.N_vis_pols = 4)) ∧
      r.minimizeCalls = r0.minimizeCalls ∧
      (r.crosspolApplied = true → ∃ psi : ℝ,
        (∀ a f, r.gains a f
            (if onesWeightCal.feed_polarization_array 0 = -5 then 0 else 1) =
          (r0.gains a f
            (if onesWeightCal.feed_polarization_array 0 = -5 then 0 else 1)).map
              fun gm => gm * Complex.exp (-(Complex.I * (psi : ℂ)) / 2)) ∧
        (∀ a f, r.gains a f
            (if onesWeightCal.feed_polarization_array 0 = -5 then 1 else 0) =
          (r0.gains a f
            (if onesWeightCal.feed_polarization_array 0 = -5 then 1 else 0)).map
              fun gm => gm * Complex.exp (Complex.I * (psi : ℂ) / 2)))) :=
  ⟨by decide,
   c4_crosspol_condition_amended (fun _ _ => 1) (fun _ => 0) true onesWeightCal
     (by decide)
     (by
       intro p hp
       have hp2 : p < 2 := hp
       interval_cases p
       · decide
       · decide)
     (fun _ => ⟨(-7, -8), by decide, by decide, by decide⟩)⟩

lemma expandInPolarizationAt_isSome (cd : CalData) (p : ℕ)
    (h : (firstIndexWhere
        (fun i => cd.vis_polarization_array i == cd.feed_polarization_array p)
        cd.N_vis_pols).isSome = true) :
    (expandInPolarizationAt cd p).isSome = true := by
  unfold expandInPolarizationAt
  obtain ⟨i, hi⟩ := Option.isSome_iff_exists.mp h
  rw [hi]
  rfl

/-- C7 counterexample: on a fully flagged input,
run_abscal_optimization_single_freq still invokes scipy.optimize.minimize
once per feed polarization (twice here) and stores the optimizer output
rather than NaN in the abscal parameters: the source contains no all-flagged
short circuit. -/
theorem c7_abscal_all_flagged_counterexample :
    (∀ t b f p, zeroWeightCal.visibility_weights t b f p = 0) ∧
    ∃ r, runAbscalOptimizationSingleFreq (fun _ _ => 5) zeroWeightCal = some r ∧
      r.minimizeCalls = 2 ∧ r.abscal_params 0 0 0 = some 5 :=
  ⟨fun _ _ _ _ => rfl, _, rfl, rfl, rfl⟩

/-- C7 amended: run_abscal_optimization_single_freq performs no all-flagged
recovery: whenever its per-polarization slicing succeeds, it invokes the
optimizer exactly once per feed polarization regardless of the weights
(in particular on entirely flagged input) and writes the optimizer output,
never NaN, into the abscal parameters at frequency index 0. -/
theorem c7_abscal_no_flag_check (opt : CalData → ℕ → ℝ) (cd : CalData)
    (hpols : ∀ p, p < cd.N_feed_pols →
      (firstIndexWhere
        (fun i => cd.vis_polarization_array i == cd.feed_polarization_array p)
        cd.N_vis_pols).isSome = true) :
    ∃ r, runAbscalOptimizationSingleFreq opt cd = some r ∧
      r.minimizeCalls = cd.N_feed_pols ∧
      ∀ i, i < 3 → ∀ p, p < cd.N_feed_pols → r.abscal_params i 0 p ≠ none := by
  obtain ⟨slices, hslices⟩ := mapM_isSome
    (fun p => expandInPolarizationAt cd p) (List.range cd.N_feed_pols)
    fun p hp =>
      expandInPolarizationAt_isSome cd p (hpols p (List.mem_range.mp hp))
  unfold runAbscalOptimizationSingleFreq
  rw [hslices]
  simp only [Option.some_bind]
  refine ⟨_, rfl, rfl, ?_⟩
  intro i hi p hp
  dsimp only
  rw [if_pos (And.intro hi (And.intro rfl hp))]
  exact Option.some_ne_none _

/-- Witness for the amended C7 at the fully flagged concrete input. -/
theorem c7_abscal_no_flag_check_witness :
    (∀ t b f p, zeroWeightCal.visibility_weights t b f p = 0) ∧
    ∃ r, runAbscalOptimizationSingleFreq (fun _ _ => 7) zeroWeightCal = some r ∧
      r.minimizeCalls = zeroWeightCal.N_feed_pols ∧
      ∀ i, i < 3 → ∀ p, p < zeroWeightCal.N_feed_pols →
        r.abscal_params i 0 p ≠ none :=
  ⟨fun _ _ _ _ => rfl,
   c7_abscal_no_flag_check (fun _ _ => 7) zeroWeightCal
     (by
       intro p hp
       have hp2 : p < 2 := hp
       interval_cases p
       · decide
       · decide)⟩

/-- Concrete UVData input whose single visibility polarization code -9 lies
outside the recognized set -5, -6, -7, -8. -/
def badPolUV : UVData where
  Nblts := 1
  Nspws := 1
  Nfreqs := 1
  Npols := 1
  polarization_array := fun _ => -9
  ant_1_array := fun _ => 0
  ant_2_array := fun _ => 1
  antenna_numbers := fun a => a
  Nants := 2
  antpos_en := fun _ => (0, 0)
  data_array := fun _ _ _ _ => 1

/-- C8: on a visibility polarization code outside -5..-8, apply_abscal
reaches the branch that prints an error and calls sys.exit(1): the operation
ends in a hard process exit issued from inside the library (the processExit
value), not in a recoverable structured error, in both the copying and the
in-place mode. -/
theorem c8_unrecognized_pol_process_exit :
    applyAbscal badPolUV (fun _ _ _ => 1) (fun i => if i = 0 then -5 else -6)
        2 false = .error (.processExit 1) ∧
    applyAbscal badPolUV (fun _ _ _ => 1) (fun i => if i = 0 then -5 else -6)
        2 true = .error (.processExit 1) :=
  ⟨rfl, rfl⟩

lemma applyAbscalLoop_shape (uv : UVData) (params : ℕ → ℕ → ℕ → ℝ)
    (feedArr : ℕ → ℤ) (nFeed : ℕ) (l : List ℕ)
    (hres : ∀ i ∈ l, ∃ pq,
      resolvePolPair feedArr nFeed (uv.polarization_array i) = .ok pq) :
    ∃ dfun : (ℕ → ℕ → ℕ → ℕ → ℂ) → (ℕ → ℕ → ℕ → ℕ → ℂ),
      ∀ o c : UVData,
        applyAbscalLoop uv params feedArr nFeed false (o, c) l =
          .ok (o, { c with data_array := dfun c.data_array }) ∧
        applyAbscalLoop uv params feedArr nFeed true (o, c) l =
          .ok ({ o with data_array := dfun o.data_array }, c) := by
  induction l with
  | nil => exact ⟨fun d => d, fun o c => ⟨rfl, rfl⟩⟩
  | cons x xs ih =>
    obtain ⟨pq, hpq⟩ := hres x (List.mem_cons_self x xs)
    obtain ⟨dfun, hdfun⟩ := ih fun i hi => hres i (List.mem_cons_of_mem x hi)
    refine ⟨fun d => dfun (applyAbscalPolUpdate uv params x pq.1 pq.2 d),
      fun o c => ⟨?_, ?_⟩⟩
    · rw [applyAbscalLoop, hpq]
      exact (hdfun o
        ({ c with data_array :=
          applyAbscalPolUpdate uv params x pq.1 pq.2 c.data_array })).1
    · rw [applyAbscalLoop, hpq]
      exact (hdfun
        ({ o with data_array :=
          applyAbscalPolUpdate uv params x pq.1 pq.2 o.data_array }) c).2

/-- C10: apply_abscal with inplace=False returns a new object carrying the
corrected visibilities while the caller's object is returned untouched;
with inplace=True the caller's object receives exactly the same corrected
data array and nothing is returned.  Requires every visibility polarization
of the cube to be recognized with its feed polarizations present, since the
unrecognized case exits instead. -/
theorem c10_inplace_frame (uv : UVData) (params : ℕ → ℕ → ℕ → ℝ)
    (feedArr : ℕ → ℤ) (nFeed : ℕ)
    (hres : ∀ i, i < uv.Npols → ∃ pq,
      resolvePolPair feedArr nFeed (uv.polarization_array i) = .ok pq) :
    ∃ d, applyAbscal uv params feedArr nFeed false =
          .ok (uv, some { uv with data_array := d }) ∧
        applyAbscal uv params feedArr nFeed true =
          .ok ({ uv with data_array := d }, none) := by
  obtain ⟨dfun, hdfun⟩ := applyAbscalLoop_shape uv params feedArr nFeed
    (List.range uv.Npols) fun i hi => hres i (List.mem_range.mp hi)
  refine ⟨dfun uv.data_array, ?_, ?_⟩
  · unfold applyAbscal
    rw [(hdfun uv uv).1]
    rfl
  · unfold applyAbscal
    rw [(hdfun uv uv).2]
    rfl

/-- Concrete UVData input with one recognized visibility polarization. -/
def goodUV : UVData where
  Nblts := 1
  Nspws := 1
  Nfreqs := 1
  Npols := 1
  polarization_array := fun _ => -5
  ant_1_array := fun _ => 0
  ant_2_array := fun _ => 1
  antenna_numbers := fun a => a
  Nants := 2
  antpos_en := fun _ => (0, 0)
  data_array := fun _ _ _ _ => 1

/-- Witness for C10 at the concrete recognized-polarization input. -/
theorem c10_inplace_frame_witness :
    ∃ d, applyAbscal goodUV (fun _ _ _ => 2)
          (fun i => if i = 0 then -5 else -6) 2 false =
            .ok (goodUV, some { goodUV with data_array := d }) ∧
        applyAbscal goodUV (fun _ _ _ => 2)
          (fun i => if i = 0 then -5 else -6) 2 true =
            .ok ({ goodUV with data_array := d }, none) :=
  c10_inplace_frame goodUV (fun _ _ _ => 2)
    (fun i => if i = 0 then -5 else -6) 2
    fun _ _ => ⟨(0, 0), rfl⟩

lemma applyAbscalLoop_id (uv : UVData) (params : ℕ → ℕ → ℕ → ℝ)
    (feedArr : ℕ → ℤ) (nFeed : ℕ) (inplace : Bool)
    (hfac : ∀ pol1 pol2 b f, abscalFactor uv params pol1 pol2 b f = 1) :
    ∀ l : List ℕ,
      (∀ i ∈ l, ∃ pq,
        resolvePolPair feedArr nFeed (uv.polarization_array i) = .ok pq) →
      ∀ st, applyAbscalLoop uv params feedArr nFeed inplace st l = .ok st := by
  intro l
  induction l with
  | nil =>
    intro _ st
    rfl
  | cons x xs ih =>
    intro hres st
    obtain ⟨pq, hpq⟩ := hres x (List.mem_cons_self x xs)
    have hU : ∀ d : ℕ → ℕ → ℕ → ℕ → ℂ,
        applyAbscalPolUpdate uv params x pq.1 pq.2 d = d := by
      intro d
      funext b s f pi
      unfold applyAbscalPolUpdate
      by_cases hpi : pi = x
      · rw [if_pos hpi, hfac, mul_one]
      · rw [if_neg hpi]
    rw [applyAbscalLoop, hpq]
    simp only [Except.bind]
    cases inplace
    · simp only [hU]
      exact ih (fun i hi => hres i (List.mem_cons_of_mem x hi)) st
    · simp only [hU]
      exact ih (fun i hi => hres i (List.mem_cons_of_mem x hi)) st

/-- C9: apply_abscal with abscal amplitude 1 and both phase gradients 0 is
the identity transform: the copying mode returns the unmodified object and
the in-place mode leaves the caller's object unchanged, for every visibility
cube whose polarization codes are recognized. -/
theorem c9_unit_abscal_identity (uv : UVData) (params : ℕ → ℕ → ℕ → ℝ)
    (feedArr : ℕ → ℤ) (nFeed : ℕ)
    (hres : ∀ i, i < uv.Npols → ∃ pq,
      resolvePolPair feedArr nFeed (uv.polarization_array i) = .ok pq)
    (hp1 : ∀ f p, params 0 f p = 1)
    (hpx : ∀ f p, params 1 f p = 0)
    (hpy : ∀ f p, params 2 f p = 0) :
    applyAbscal uv params feedArr nFeed false = .ok (uv, some uv) ∧
    applyAbscal uv params feedArr nFeed true = .ok (uv, none) := by
  have hfac : ∀ pol1 pol2 b f, abscalFactor uv params pol1 pol2 b f = 1 := by
    intro pol1 pol2 b f
    unfold abscalFactor
    rw [hp1, hp1, hpx, hpx, hpy, hpy]
    simp
  constructor
  · unfold applyAbscal
    rw [applyAbscalLoop_id uv params feedArr nFeed false hfac
      (List.range uv.Npols) (fun i hi => hres i (List.mem_range.mp hi))
      (uv, uv)]
    rfl
  · unfold applyAbscal
    rw [applyAbscalLoop_id uv params feedArr nFeed true hfac
      (List.range uv.Npols) (fun i hi => hres i (List.mem_range.mp hi))
      (uv, uv)]
    rfl

/-- Witness for C9 at the concrete recognized-polarization input with unit
amplitude and zero phase gradients. -/
theorem c9_unit_abscal_identity_witness :
    applyAbscal goodUV (fun i _ _ => if i = 0 then 1 else 0)
        (fun i => if i = 0 then -5 else -6) 2 false = .ok (goodUV, some goodUV) ∧
    applyAbscal goodUV (fun i _ _ => if i = 0 then 1 else 0)
        (fun i => if i = 0 then -5 else -6) 2 true = .ok (goodUV, none) :=
  c9_unit_abscal_identity goodUV (fun i _ _ => if i = 0 then 1 else 0)
    (fun i => if i = 0 then -5 else -6) 2
    (fun _ _ => ⟨(0, 0), rfl⟩)
    (fun _ _ => rfl) (fun _ _ => rfl) (fun _ _ => rfl)

/-- C5: whenever the per-baseline variance rows are computed successfully
and the pre-normalization trace sum is nonzero (as it is for any valid
positive variance model), the per-baseline matrices stored by
get_dwcal_weights_from_delay_spectra have trace sum over baselines equal to
Nfreqs * Nbls, at every time and polarization index of the broadcast
tensor. -/
theorem c5_dwcal_trace_normalization (cd : CalData) (dsv : ℕ → ℕ → ℝ)
    (edges : ℕ → ℝ) (nEdges : ℕ) (delayAxis : ℕ → ℝ) (nDelays : ℕ) (os : ℕ)
    (rows : List (ℕ → ℝ))
    (hrows : dwcalRows cd dsv edges nEdges delayAxis nDelays os = some rows)
    (hS : dwcalTraceSum cd rows os ≠ 0) :
    ∃ W, getDwcalWeightsFromDelaySpectra cd dsv edges nEdges delayAxis
          nDelays os = some W ∧
      ∀ t p, (∑ b ∈ Finset.range cd.Nbls, ∑ f ∈ Finset.range cd.Nfreqs,
          W t b f f p) = (cd.Nfreqs : ℂ) * (cd.Nbls : ℂ) := by
  have hW : getDwcalWeightsFromDelaySpectra cd dsv edges nEdges delayAxis
      nDelays os =
      some (fun _t b f1 f2 _p =>
        ((cd.Nfreqs : ℂ) * (cd.Nbls : ℂ) / dwcalTraceSum cd rows os) *
          dwcalWeightMatPre cd rows os b f1 f2) := by
    unfold getDwcalWeightsFromDelaySpectra
    rw [hrows, Option.map_some']
  refine ⟨_, hW, ?_⟩
  intro t p
  have hsum : (∑ b ∈ Finset.range cd.Nbls, ∑ f ∈ Finset.range cd.Nfreqs,
      ((cd.Nfreqs : ℂ) * (cd.Nbls : ℂ) / dwcalTraceSum cd rows os) *
        dwcalWeightMatPre cd rows os b f f) =
      ((cd.Nfreqs : ℂ) * (cd.Nbls : ℂ) / dwcalTraceSum cd rows os) *
        dwcalTraceSum cd rows os := by
    unfold dwcalTraceSum
    rw [Finset.mul_sum]
    exact Finset.sum_congr rfl fun b _ => (Finset.mul_sum _ _ _).symm
  rw [hsum, div_mul_cancel₀ _ hS]

/-- Variance row computed by the delay-weight builder on the concrete C5
witness input: one baseline of length 1, bin edges 0 and 10, unit variance
model on a single delay sample, no oversampling. -/
noncomputable def c5RowW : ℕ → ℝ :=
  fun k => npInterp (fftfreq (zeroWeightCal.Nfreqs * 1) zeroWeightCal.channel_width k)
    (fun _ => (0 : ℝ)) (fun j => (fun _ _ => (1 : ℝ)) 0 j) 1

lemma c5_baseline_length : blLength zeroWeightCal 0 = 1 := by
  simp [blLength, zeroWeightCal]

lemma c5_rows_eq :
    dwcalRows zeroWeightCal (fun _ _ => (1 : ℝ))
      (fun i => if i = 0 then (0 : ℝ) else 10) 2 (fun _ => (0 : ℝ)) 1 1 =
      some [c5RowW] := by
  have hcand : binCandidates (fun i => if i = 0 then (0 : ℝ) else 10) 2
      (blLength zeroWeightCal 0) = [0] := by
    unfold binCandidates
    rw [c5_baseline_length, show List.range 2 = [0, 1] from rfl]
    rw [List.filter_cons, List.filter_cons, List.filter_nil]
    rw [decide_eq_true
        (by norm_num : ((if (0 : ℕ) = 0 then (0 : ℝ) else 10) ≤ 1)),
      decide_eq_false
        (by norm_num : ¬ ((if (1 : ℕ) = 0 then (0 : ℝ) else 10) ≤ 1))]
    rfl
  have hbin : binIndexFor (fun i => if i = 0 then (0 : ℝ) else 10) 2
      (blLength zeroWeightCal 0) = some 0 := by
    unfold binIndexFor
    rw [hcand]
    rfl
  have hrow : dwcalVarianceRow zeroWeightCal (fun _ _ => (1 : ℝ))
      (fun i => if i = 0 then (0 : ℝ) else 10) 2 (fun _ => (0 : ℝ)) 1 1 0 =
      some c5RowW := by
    unfold dwcalVarianceRow
    rw [hbin, Option.map_some', if_neg (by norm_num [c5_baseline_length])]
    rfl
  unfold dwcalRows
  rw [show List.range zeroWeightCal.Nbls = [0] from rfl, List.mapM_cons, hrow,
    List.mapM_nil]
  rfl

lemma c5_row_at_zero : c5RowW 0 = 1 := by
  have hf : fftfreq (zeroWeightCal.Nfreqs * 1) zeroWeightCal.channel_width 0 = 0 := by
    unfold fftfreq
    norm_num
  unfold c5RowW
  rw [hf]
  unfold npInterp
  norm_num

lemma c5_trace_ne_zero : dwcalTraceSum zeroWeightCal [c5RowW] 1 ≠ 0 := by
  have htr : dwcalTraceSum zeroWeightCal [c5RowW] 1 = 1 := by
    unfold dwcalTraceSum
    rw [show zeroWeightCal.Nbls = 1 from rfl,
      show zeroWeightCal.Nfreqs = 1 from rfl, Finset.sum_range_one,
      Finset.sum_range_one]
    unfold dwcalWeightMatPre
    rw [if_neg (lt_irrefl 0)]
    unfold dwcalFreqWeighting npIfft
    rw [show zeroWeightCal.Nfreqs * 1 = 1 from rfl, Finset.sum_range_one]
    simp [c5_row_at_zero]
  rw [htr]
  exact one_ne_zero

/-- Witness for C5 at the concrete one-baseline one-channel input. -/
theorem c5_dwcal_trace_normalization_witness :
    (dwcalRows zeroWeightCal (fun _ _ => (1 : ℝ))
        (fun i => if i = 0 then (0 : ℝ) else 10) 2 (fun _ => (0 : ℝ)) 1 1 =
      some [c5RowW]) ∧
    dwcalTraceSum zeroWeightCal [c5RowW] 1 ≠ 0 ∧
    ∃ W, getDwcalWeightsFromDelaySpectra zeroWeightCal (fun _ _ => (1 : ℝ))
          (fun i => if i = 0 then (0 : ℝ) else 10) 2 (fun _ => (0 : ℝ)) 1 1 =
        some W ∧
      ∀ t p, (∑ b ∈ Finset.range zeroWeightCal.Nbls,
          ∑ f ∈ Finset.range zeroWeightCal.Nfreqs, W t b f f p) =
        (zeroWeightCal.Nfreqs : ℂ) * (zeroWeightCal.Nbls : ℂ) :=
  ⟨c5_rows_eq, c5_trace_ne_zero,
   c5_dwcal_trace_normalization zeroWeightCal (fun _ _ => (1 : ℝ))
     (fun i => if i = 0 then (0 : ℝ) else 10) 2 (fun _ => (0 : ℝ)) 1 1
     [c5RowW] c5_rows_eq c5_trace_ne_zero⟩

/-- C6 as the code behaves: a baseline shorter than the lowest bin edge is
outside all bins, and instead of the warn-and-skip recovery the bin
selection applies np.max to an empty np.where result, raising ValueError
(embedded as none): get_dwcal_weights_from_delay_spectra fails rather than
leaving that baseline's kernel at zero. -/
theorem c6_short_baseline_value_error :
    blLength zeroWeightCal 0 < (fun i : ℕ => if i = 0 then (5 : ℝ) else 10) 0 ∧
    getDwcalWeightsFromDelaySpectra zeroWeightCal (fun _ _ => (1 : ℝ))
      (fun i => if i = 0 then (5 : ℝ) else 10) 2 (fun _ => (0 : ℝ)) 1 1 =
      none := by
  constructor
  · rw [c5_baseline_length]
    norm_num
  · have hcand : binCandidates (fun i => if i = 0 then (5 : ℝ) else 10) 2
        (blLength zeroWeightCal 0) = [] := by
      unfold binCandidates
      rw [c5_baseline_length, show List.range 2 = [0, 1] from rfl]
      rw [List.filter_cons, List.filter_cons, List.filter_nil]
      rw [decide_eq_false
          (by norm_num : ¬ ((if (0 : ℕ) = 0 then (5 : ℝ) else 10) ≤ 1)),
        decide_eq_false
          (by norm_num : ¬ ((if (1 : ℕ) = 0 then (5 : ℝ) else 10) ≤ 1))]
      rfl
    have hrow : dwcalVarianceRow zeroWeightCal (fun _ _ => (1 : ℝ))
        (fun i => if i = 0 then (5 : ℝ) else 10) 2 (fun _ => (0 : ℝ)) 1 1 0 =
        none := by
      unfold dwcalVarianceRow binIndexFor
      rw [hcand]
      rfl
    unfold getDwcalWeightsFromDelaySpectra dwcalRows
    rw [show List.range zeroWeightCal.Nbls = [0] from rfl, List.mapM_cons,
      hrow]
    rfl

end Newcal
